import Mathlib

/-!
Verification of the transformation-detection engine of `compare_data.py`
(image comparison script detecting which of six geometric transforms maps an
original grayscale image onto a candidate).

The embedding models a grayscale image (a 2-D numpy array of intensity
values) as a `PixelMatrix`: declared `height`, `width`, and a row-major
`data` list.  A numpy array always satisfies `data.length = height * width`;
that invariant is the well-formedness predicate `PixelMatrix.wf`.
Python floats are modelled as exact rationals.
-/

/-- A pixel matrix: declared dimensions plus row-major data.  Mirrors the
2-D numpy arrays the script operates on (and the PixelMatrix data model:
`height`, `width`, `data` with invariant `len(data) == height*width`). -/
structure PixelMatrix where
  height : Nat
  width : Nat
  data : List Nat
deriving DecidableEq, Repr

/-- Structural well-formedness: the declared dimensions agree with the
actual element count.  Always true of a real numpy array. -/
def PixelMatrix.wf (m : PixelMatrix) : Prop :=
  m.data.length = m.height * m.width

instance (m : PixelMatrix) : Decidable m.wf :=
  inferInstanceAs (Decidable (m.data.length = m.height * m.width))

/-- `img.shape` of a 2-D numpy array: `(rows, cols)`. -/
def PixelMatrix.shape (m : PixelMatrix) : Nat × Nat :=
  (m.height, m.width)

/-- `img.size` of a 2-D numpy array: `rows * cols`. -/
def PixelMatrix.size (m : PixelMatrix) : Nat :=
  m.height * m.width

/-- The pixel at row `y`, column `x` (row-major indexing; out-of-range
reads yield the junk value 0, which never occurs for in-range indices of a
well-formed matrix). -/
def PixelMatrix.pixAt (m : PixelMatrix) (y x : Nat) : Nat :=
  m.data.getD (y * m.width + x) 0

/-- Build an `h × w` matrix whose pixel at row `y`, column `x` is `f y x`. -/
def mkMatrix (h w : Nat) (f : Nat → Nat → Nat) : PixelMatrix :=
  ⟨h, w, (List.range h).flatMap fun y => (List.range w).map fun x => f y x⟩

/-- `apply_rotate_cw`: `np.rot90(img, k=-1)`.  The result is `w × h` with
`out[i][j] = in[h-1-j][i]`. -/
def apply_rotate_cw (m : PixelMatrix) : PixelMatrix :=
  mkMatrix m.width m.height fun i j => m.pixAt (m.height - 1 - j) i

/-- `apply_rotate_ccw`: `np.rot90(img, k=1)`.  The result is `w × h` with
`out[i][j] = in[j][w-1-i]`. -/
def apply_rotate_ccw (m : PixelMatrix) : PixelMatrix :=
  mkMatrix m.width m.height fun i j => m.pixAt j (m.width - 1 - i)

/-- `apply_rotate_180`: `np.rot90(img, k=2)`.  Same shape,
`out[i][j] = in[h-1-i][w-1-j]`. -/
def apply_rotate_180 (m : PixelMatrix) : PixelMatrix :=
  mkMatrix m.height m.width fun i j => m.pixAt (m.height - 1 - i) (m.width - 1 - j)

/-- `apply_mirror_h`: `np.fliplr(img)`.  Same shape, each row reversed:
`out[i][j] = in[i][w-1-j]`. -/
def apply_mirror_h (m : PixelMatrix) : PixelMatrix :=
  mkMatrix m.height m.width fun i j => m.pixAt i (m.width - 1 - j)

/-- `apply_mirror_v`: `np.flipud(img)`.  Same shape, row order reversed:
`out[i][j] = in[h-1-i][j]`. -/
def apply_mirror_v (m : PixelMatrix) : PixelMatrix :=
  mkMatrix m.height m.width fun i j => m.pixAt (m.height - 1 - i) j

/-- `np.sum(img1 == img2)` for equally-shaped arrays: the number of
positions of the flat row-major buffers holding equal values. -/
def matchCount (a b : PixelMatrix) : Nat :=
  (a.data.zip b.data).countP fun p => p.1 == p.2

/-- `ImageComparator.calculate_similarity`: 0 when the shapes differ,
otherwise `matches / total * 100` (Python float division, modelled
exactly over the rationals). -/
def calculate_similarity (img1 img2 : PixelMatrix) : ℚ :=
  if img1.shape ≠ img2.shape then 0
  else ((matchCount img1 img2 : ℚ) / (img1.size : ℚ)) * 100

/-- The `TransformType` enumeration of the script (declaration order
matters: it is the hypothesis-evaluation and tie-break order). -/
inductive TransformType where
  | IDENTICAL
  | ROTATE_CW
  | ROTATE_CCW
  | ROTATE_180
  | MIRROR_H
  | MIRROR_V
  | UNKNOWN
deriving DecidableEq, Repr

/-- The `transformations` list of `detect_transformation`, in source
declaration order. -/
def transformations : List (TransformType × (PixelMatrix → PixelMatrix)) :=
  [(TransformType.IDENTICAL, fun x => x),
   (TransformType.ROTATE_CW, apply_rotate_cw),
   (TransformType.ROTATE_CCW, apply_rotate_ccw),
   (TransformType.ROTATE_180, apply_rotate_180),
   (TransformType.MIRROR_H, apply_mirror_h),
   (TransformType.MIRROR_V, apply_mirror_v)]

/-- One iteration of the `for trans_type, trans_func in transformations`
loop of `detect_transformation`.  The hypothesis function returns `Option`:
`none` models the transform call raising an exception, in which case the
`except` branch only prints — the state (best kind, best score, results) is
left unchanged.  On success the similarity is computed, the result row is
appended, the threshold is consulted only for the printed match status
(`is_match`, dead for the returned value), and the running best is updated
exactly when the new similarity is strictly greater. -/
def detectStep (threshold : ℚ) (orig cand : PixelMatrix)
    (st : TransformType × ℚ × List (TransformType × ℚ))
    (t : TransformType × (PixelMatrix → Option PixelMatrix)) :
    TransformType × ℚ × List (TransformType × ℚ) :=
  match t.2 orig with
  | none => st
  | some transformed =>
    let similarity := calculate_similarity transformed cand
    let results := st.2.2 ++ [(t.1, similarity)]
    let _is_match : Bool := decide (similarity ≥ threshold * 100)
    if similarity > st.2.1 then (t.1, similarity, results)
    else (st.1, st.2.1, results)

/-- The body of `detect_transformation`, generic in the hypothesis list so
that the per-hypothesis `try/except` behaviour can be stated: starts from
`best_match = UNKNOWN`, `best_similarity = 0.0`, `results = []` and folds
`detectStep` over the hypotheses. -/
def detect_with (l : List (TransformType × (PixelMatrix → Option PixelMatrix)))
    (threshold : ℚ) (orig cand : PixelMatrix) :
    TransformType × ℚ × List (TransformType × ℚ) :=
  l.foldl (detectStep threshold orig cand) (TransformType.UNKNOWN, 0, [])

/-- `ImageComparator.detect_transformation`: runs the sweep over the six
actual transformations (all of which are total functions, so every
hypothesis succeeds).  Returns `(best_match, best_similarity, results)`. -/
def detect_transformation (threshold : ℚ) (orig cand : PixelMatrix) :
    TransformType × ℚ × List (TransformType × ℚ) :=
  detect_with (transformations.map fun t => (t.1, fun m => some (t.2 m)))
    threshold orig cand

/-- The flat list of absolute pixel differences
`np.abs(a.astype(int16) - b.astype(int16))` used by
`visualize_difference`. -/
def diffData (a b : PixelMatrix) : List Nat :=
  (a.data.zip b.data).map fun p => ((p.1 : ℤ) - (p.2 : ℤ)).natAbs

/-- The data computed by `ImageComparator.visualize_difference`: the raw
difference grid, the amplified visualization grid, and the printed
statistics. -/
structure DiffStats where
  diffMap : List Nat
  amplified : List Nat
  nonZero : Nat
  total : Nat
  maxDiff : Nat
  meanDiff : ℚ
deriving DecidableEq, Repr

/-- `ImageComparator.visualize_difference`: returns early (`none`) when the
shapes differ; otherwise computes the absolute difference, the ×5 amplified
visualization `np.clip(diff * 5, 0, 255)`, and the statistics
(`np.count_nonzero(diff)`, `diff.size`, `np.max(diff)`, `np.mean(diff)`) —
all statistics from the unamplified `diff`. -/
def visualize_difference (a b : PixelMatrix) : Option DiffStats :=
  if a.shape ≠ b.shape then none
  else
    let diff := diffData a b
    some { diffMap := diff
           amplified := diff.map fun d => min (d * 5) 255
           nonZero := diff.countP fun d => d != 0
           total := a.size
           maxDiff := diff.foldl max 0
           meanDiff := ((diff.map fun d => (d : ℚ)).sum) / (a.size : ℚ) }

/-- `if similarity >= self.threshold * 100` — the reporting-boundary test
of `ImageComparator.compare` deciding whether the verdict is announced as a
confirmed match. -/
def is_confirmed (threshold bestScore : ℚ) : Bool :=
  bestScore ≥ threshold * 100

/-- Spec-side count of matching positions, written positionwise over the
2-D grid: the number of `(y, x)` positions where the two matrices hold
equal values. -/
def specMatchCount (a b : PixelMatrix) : Nat :=
  ((List.range a.height).map fun y =>
    (List.range a.width).countP fun x => a.pixAt y x == b.pixAt y x).sum

/-- Spec-side elementwise absolute difference, written positionwise over
the 2-D grid in row-major order. -/
def specDiffList (a b : PixelMatrix) : List Nat :=
  (List.range a.height).flatMap fun y =>
    (List.range a.width).map fun x => ((a.pixAt y x : ℤ) - (b.pixAt y x : ℤ)).natAbs

/-- The similarity score of each of the six hypotheses against `cand`, in
declaration order. -/
def allScores (orig cand : PixelMatrix) : List ℚ :=
  transformations.map fun t => calculate_similarity (t.2 orig) cand

/-! ### Tabulation lemmas for `mkMatrix` -/

theorem length_mkMatrix_data (h w : Nat) (f : Nat → Nat → Nat) :
    (mkMatrix h w f).data.length = h * w := by
  simp only [mkMatrix, List.length_flatMap]
  have hmap : (List.map (List.length ∘ fun y => (List.range w).map fun x => f y x)
      (List.range h)) = List.replicate h w := by
    have : (List.length ∘ fun y => (List.range w).map fun x => f y x) =
        Function.const Nat w := by
      funext y
      simp
    rw [this, List.map_const, List.length_range]
  rw [hmap, List.sum_replicate, smul_eq_mul]

theorem wf_mkMatrix (h w : Nat) (f : Nat → Nat → Nat) : (mkMatrix h w f).wf :=
  length_mkMatrix_data h w f

theorem getD_flatMap_range (w : Nat) (f : Nat → Nat → Nat) :
    ∀ (h y x : Nat), y < h → x < w →
      ((List.range h).flatMap fun y => (List.range w).map fun x => f y x).getD
        (y * w + x) 0 = f y x := by
  intro h
  induction h with
  | zero => intro y x hy _; exact absurd hy (Nat.not_lt_zero y)
  | succ n ih =>
    intro y x hy hx
    rw [List.range_succ, List.flatMap_append, List.flatMap_cons, List.flatMap_nil,
      List.append_nil]
    have hlenA : ((List.range n).flatMap fun y => (List.range w).map fun x => f y x).length
        = n * w := length_mkMatrix_data n w f
    by_cases hyn : y < n
    · have hidx : y * w + x < n * w := by
        have h1 : y * w + x < (y + 1) * w := by
          rw [Nat.succ_mul]
          omega
        have h2 : (y + 1) * w ≤ n * w := Nat.mul_le_mul_right w hyn
        omega
      rw [List.getD_append _ _ _ _ (by rw [hlenA]; exact hidx)]
      exact ih y x hyn hx
    · have hyeq : y = n := by omega
      subst hyeq
      rw [List.getD_append_right _ _ _ _ (by rw [hlenA, Nat.mul_comm]; exact Nat.le_add_right _ _)]
      have hsub : y * w + x - ((List.range y).flatMap
          fun y => (List.range w).map fun x => f y x).length = x := by
        rw [hlenA]
        omega
      rw [hsub]
      have hxlen : x < ((List.range w).map fun x => f y x).length := by
        simpa using hx
      rw [List.getD_eq_getElem _ _ hxlen, List.getElem_map, List.getElem_range]

theorem pixAt_mkMatrix (h w : Nat) (f : Nat → Nat → Nat) (y x : Nat)
    (hy : y < h) (hx : x < w) : (mkMatrix h w f).pixAt y x = f y x :=
  getD_flatMap_range w f h y x hy hx

theorem mkMatrix_congr (h w : Nat) (f g : Nat → Nat → Nat)
    (H : ∀ y, y < h → ∀ x, x < w → f y x = g y x) :
    mkMatrix h w f = mkMatrix h w g := by
  unfold mkMatrix
  refine congrArg (PixelMatrix.mk h w) ?_
  rw [List.flatMap_def, List.flatMap_def]
  refine congrArg List.flatten ?_
  refine List.map_congr_left ?_
  intro y hy
  refine List.map_congr_left ?_
  intro x hx
  exact H y (List.mem_range.mp hy) x (List.mem_range.mp hx)

theorem mkMatrix_pixAt_self (m : PixelMatrix) (hm : m.wf) :
    mkMatrix m.height m.width m.pixAt = m := by
  obtain ⟨h, w, d⟩ := m
  have hm' : d.length = h * w := hm
  refine congrArg (PixelMatrix.mk h w) ?_
  show (mkMatrix h w (PixelMatrix.pixAt ⟨h, w, d⟩)).data = d
  apply List.ext_getElem
  · rw [length_mkMatrix_data h w, hm']
  · intro i h1 h2
    have hiw : i < h * w := by
      have := length_mkMatrix_data h w (PixelMatrix.pixAt ⟨h, w, d⟩)
      omega
    have hwpos : 0 < w := by
      rcases Nat.eq_zero_or_pos w with hw0 | hw0
      · subst hw0; omega
      · exact hw0
    have hy : i / w < h := (Nat.div_lt_iff_lt_mul hwpos).mpr (by omega)
    have hx : i % w < w := Nat.mod_lt _ hwpos
    have hdecomp : (i / w) * w + i % w = i := by
      rw [Nat.mul_comm]
      exact Nat.div_add_mod i w
    have hstep := getD_flatMap_range w (PixelMatrix.pixAt ⟨h, w, d⟩) h (i / w) (i % w) hy hx
    rw [hdecomp] at hstep
    have hpix : (PixelMatrix.pixAt ⟨h, w, d⟩) (i / w) (i % w) = d.getD i 0 := by
      show d.getD ((i / w) * w + i % w) 0 = d.getD i 0
      rw [hdecomp]
    calc (mkMatrix h w (PixelMatrix.pixAt ⟨h, w, d⟩)).data[i]
        = (mkMatrix h w (PixelMatrix.pixAt ⟨h, w, d⟩)).data.getD i 0 :=
          (List.getD_eq_getElem _ _ h1).symm
      _ = (PixelMatrix.pixAt ⟨h, w, d⟩) (i / w) (i % w) := hstep
      _ = d.getD i 0 := hpix
      _ = d[i] := List.getD_eq_getElem _ _ h2

/-! ### Round-trip laws for the transforms -/

theorem rotate_ccw_rotate_cw (m : PixelMatrix) (hm : m.wf) :
    apply_rotate_ccw (apply_rotate_cw m) = m := by
  have h1 : apply_rotate_ccw (apply_rotate_cw m) =
      mkMatrix m.height m.width m.pixAt := by
    show mkMatrix m.height m.width
        (fun i j => (apply_rotate_cw m).pixAt j (m.height - 1 - i)) = _
    apply mkMatrix_congr
    intro i hi j hj
    show (mkMatrix m.width m.height fun a b => m.pixAt (m.height - 1 - b) a).pixAt
        j (m.height - 1 - i) = m.pixAt i j
    rw [pixAt_mkMatrix _ _ _ _ _ hj (by omega)]
    congr 1
    omega
  rw [h1, mkMatrix_pixAt_self m hm]

theorem rotate_cw_rotate_ccw (m : PixelMatrix) (hm : m.wf) :
    apply_rotate_cw (apply_rotate_ccw m) = m := by
  have h1 : apply_rotate_cw (apply_rotate_ccw m) =
      mkMatrix m.height m.width m.pixAt := by
    show mkMatrix m.height m.width
        (fun i j => (apply_rotate_ccw m).pixAt (m.width - 1 - j) i) = _
    apply mkMatrix_congr
    intro i hi j hj
    show (mkMatrix m.width m.height fun a b => m.pixAt b (m.width - 1 - a)).pixAt
        (m.width - 1 - j) i = m.pixAt i j
    rw [pixAt_mkMatrix _ _ _ _ _ (by omega) hi]
    congr 1
    omega
  rw [h1, mkMatrix_pixAt_self m hm]

theorem rotate_180_involutive (m : PixelMatrix) (hm : m.wf) :
    apply_rotate_180 (apply_rotate_180 m) = m := by
  have h1 : apply_rotate_180 (apply_rotate_180 m) =
      mkMatrix m.height m.width m.pixAt := by
    show mkMatrix m.height m.width
        (fun i j => (apply_rotate_180 m).pixAt (m.height - 1 - i) (m.width - 1 - j)) = _
    apply mkMatrix_congr
    intro i hi j hj
    show (mkMatrix m.height m.width
        fun a b => m.pixAt (m.height - 1 - a) (m.width - 1 - b)).pixAt
        (m.height - 1 - i) (m.width - 1 - j) = m.pixAt i j
    rw [pixAt_mkMatrix _ _ _ _ _ (by omega) (by omega)]
    congr 1
    · omega
    · omega
  rw [h1, mkMatrix_pixAt_self m hm]

theorem mirror_h_involutive (m : PixelMatrix) (hm : m.wf) :
    apply_mirror_h (apply_mirror_h m) = m := by
  have h1 : apply_mirror_h (apply_mirror_h m) =
      mkMatrix m.height m.width m.pixAt := by
    show mkMatrix m.height m.width
        (fun i j => (apply_mirror_h m).pixAt i (m.width - 1 - j)) = _
    apply mkMatrix_congr
    intro i hi j hj
    show (mkMatrix m.height m.width
        fun a b => m.pixAt a (m.width - 1 - b)).pixAt i (m.width - 1 - j) = m.pixAt i j
    rw [pixAt_mkMatrix _ _ _ _ _ hi (by omega)]
    congr 1
    omega
  rw [h1, mkMatrix_pixAt_self m hm]

theorem mirror_v_involutive (m : PixelMatrix) (hm : m.wf) :
    apply_mirror_v (apply_mirror_v m) = m := by
  have h1 : apply_mirror_v (apply_mirror_v m) =
      mkMatrix m.height m.width m.pixAt := by
    show mkMatrix m.height m.width
        (fun i j => (apply_mirror_v m).pixAt (m.height - 1 - i) j) = _
    apply mkMatrix_congr
    intro i hi j hj
    show (mkMatrix m.height m.width
        fun a b => m.pixAt (m.height - 1 - a) b).pixAt (m.height - 1 - i) j = m.pixAt i j
    rw [pixAt_mkMatrix _ _ _ _ _ (by omega) hj]
    congr 1
    omega
  rw [h1, mkMatrix_pixAt_self m hm]

/-! ### Relating flat-buffer counts to positionwise counts -/

theorem countP_zip_eq_range (p : Nat → Nat → Bool) :
    ∀ (l1 l2 : List Nat) (n : Nat), l1.length = n → l2.length = n →
      (l1.zip l2).countP (fun q => p q.1 q.2) =
        (List.range n).countP (fun i => p (l1.getD i 0) (l2.getD i 0)) := by
  intro l1
  induction l1 with
  | nil =>
    intro l2 n h1 _
    subst h1
    simp
  | cons a t1 ih =>
    intro l2 n h1 h2
    cases l2 with
    | nil => simp at h1 h2; omega
    | cons b t2 =>
      cases n with
      | zero => simp at h1
      | succ k =>
        rw [List.range_succ_eq_map]
        rw [List.zip_cons_cons, List.countP_cons, List.countP_cons, List.countP_map]
        have htail : (t1.zip t2).countP (fun q => p q.1 q.2) =
            (List.range k).countP (fun i => p (t1.getD i 0) (t2.getD i 0)) := by
          apply ih
          · simpa using h1
          · simpa using h2
        rw [htail]
        have hcomp : ((fun i => p ((a :: t1).getD i 0) ((b :: t2).getD i 0)) ∘ Nat.succ)
            = fun i => p (t1.getD i 0) (t2.getD i 0) := by
          funext i
          simp [List.getD_cons_succ]
        rw [hcomp]
        simp [List.getD_cons_zero]

theorem countP_range_mul (q : Nat → Bool) :
    ∀ (h w : Nat), (List.range (h * w)).countP q =
      ((List.range h).map fun y => (List.range w).countP fun x => q (y * w + x)).sum := by
  intro h
  induction h with
  | zero => intro w; simp
  | succ n ih =>
    intro w
    rw [Nat.succ_mul, List.range_add, List.countP_append, List.countP_map]
    rw [List.range_succ, List.map_append, List.sum_append]
    rw [ih w]
    simp [Function.comp_def]

theorem matchCount_eq_spec (a b : PixelMatrix) (hsh : a.shape = b.shape)
    (ha : a.wf) (hb : b.wf) : matchCount a b = specMatchCount a b := by
  have hh : a.height = b.height := congrArg Prod.fst hsh
  have hw : a.width = b.width := congrArg Prod.snd hsh
  unfold matchCount specMatchCount
  rw [countP_zip_eq_range (fun u v => u == v) a.data b.data (a.height * a.width) ha
    (by rw [hb, hh, hw])]
  rw [countP_range_mul]
  refine congrArg List.sum ?_
  refine List.map_congr_left ?_
  intro y _
  refine List.countP_congr ?_
  intro x _
  show (a.data.getD (y * a.width + x) 0 == b.data.getD (y * a.width + x) 0) = true ↔
    (a.pixAt y x == b.pixAt y x) = true
  unfold PixelMatrix.pixAt
  rw [← hw]

theorem map_zip_eq_range (g : Nat → Nat → Nat) :
    ∀ (l1 l2 : List Nat) (n : Nat), l1.length = n → l2.length = n →
      (l1.zip l2).map (fun q => g q.1 q.2) =
        (List.range n).map (fun i => g (l1.getD i 0) (l2.getD i 0)) := by
  intro l1
  induction l1 with
  | nil =>
    intro l2 n h1 _
    subst h1
    simp
  | cons a t1 ih =>
    intro l2 n h1 h2
    cases l2 with
    | nil => simp at h1 h2; omega
    | cons b t2 =>
      cases n with
      | zero => simp at h1
      | succ k =>
        rw [List.range_succ_eq_map]
        rw [List.zip_cons_cons, List.map_cons, List.map_cons, List.map_map]
        have htail : (t1.zip t2).map (fun q => g q.1 q.2) =
            (List.range k).map (fun i => g (t1.getD i 0) (t2.getD i 0)) := by
          apply ih
          · simpa using h1
          · simpa using h2
        rw [htail]
        have hcomp : ((fun i => g ((a :: t1).getD i 0) ((b :: t2).getD i 0)) ∘ Nat.succ)
            = fun i => g (t1.getD i 0) (t2.getD i 0) := by
          funext i
          simp [List.getD_cons_succ]
        rw [hcomp]
        simp [List.getD_cons_zero]

theorem map_range_mul (g : Nat → Nat) :
    ∀ (h w : Nat), (List.range (h * w)).map g =
      (List.range h).flatMap fun y => (List.range w).map fun x => g (y * w + x) := by
  intro h
  induction h with
  | zero => intro w; simp
  | succ n ih =>
    intro w
    rw [Nat.succ_mul, List.range_add, List.map_append, List.map_map]
    rw [List.range_succ, List.flatMap_append, List.flatMap_cons, List.flatMap_nil,
      List.append_nil]
    rw [ih w]
    simp [Function.comp_def]

theorem diffData_eq_spec (a b : PixelMatrix) (hsh : a.shape = b.shape)
    (ha : a.wf) (hb : b.wf) : diffData a b = specDiffList a b := by
  have hh : a.height = b.height := congrArg Prod.fst hsh
  have hw : a.width = b.width := congrArg Prod.snd hsh
  unfold diffData specDiffList
  rw [map_zip_eq_range (fun u v => ((u : ℤ) - (v : ℤ)).natAbs) a.data b.data
    (a.height * a.width) ha (by rw [hb, hh, hw])]
  rw [map_range_mul]
  refine List.flatMap_congr ?_
  intro y _
  refine List.map_congr_left ?_
  intro x _
  show (((a.data.getD (y * a.width + x) 0 : ℤ)) - (b.data.getD (y * a.width + x) 0 : ℤ)).natAbs
    = (((a.pixAt y x : ℤ)) - (b.pixAt y x : ℤ)).natAbs
  unfold PixelMatrix.pixAt
  rw [← hw]

theorem mem_zip_self : ∀ (l : List Nat) (p : Nat × Nat), p ∈ l.zip l → p.1 = p.2 := by
  intro l
  induction l with
  | nil => intro p hp; simp at hp
  | cons a t ih =>
    intro p hp
    rw [List.zip_cons_cons] at hp
    rcases List.mem_cons.mp hp with h0 | h1
    · subst h0; rfl
    · exact ih p h1

theorem zip_forall_eq :
    ∀ (l1 l2 : List Nat), l1.length = l2.length →
      ((∀ p ∈ l1.zip l2, p.1 = p.2) ↔ l1 = l2) := by
  intro l1
  induction l1 with
  | nil =>
    intro l2 hlen
    cases l2 with
    | nil => simp
    | cons b t2 => simp at hlen
  | cons a t1 ih =>
    intro l2 hlen
    cases l2 with
    | nil => simp at hlen
    | cons b t2 =>
      rw [List.zip_cons_cons]
      constructor
      · intro hall
        have hhead : a = b := hall (a, b) (List.mem_cons_self _ _)
        have htail : t1 = t2 := by
          refine (ih t2 (by simpa using hlen)).mp ?_
          intro p hp
          exact hall p (List.mem_cons_of_mem _ hp)
        rw [hhead, htail]
      · intro heq p hp
        injection heq with h1 h2
        subst h1
        subst h2
        rcases List.mem_cons.mp hp with hp0 | hp1
        · subst hp0; rfl
        · exact mem_zip_self t1 p hp1

theorem calculate_similarity_nonneg (a b : PixelMatrix) :
    0 ≤ calculate_similarity a b := by
  unfold calculate_similarity
  split
  · exact le_refl 0
  · have h1 : (0 : ℚ) ≤ (matchCount a b : ℚ) / (a.size : ℚ) :=
      div_nonneg (Nat.cast_nonneg _) (Nat.cast_nonneg _)
    have h2 : (0 : ℚ) ≤ 100 := by norm_num
    exact mul_nonneg h1 h2

/-! ### Characterizing the hypothesis sweep -/

/-- The per-hypothesis `(kind, score)` rows the sweep appends: one row for
each hypothesis whose transform succeeds, in sweep order. -/
def scoredResults (l : List (TransformType × (PixelMatrix → Option PixelMatrix)))
    (orig cand : PixelMatrix) : List (TransformType × ℚ) :=
  l.filterMap fun t => (t.2 orig).map fun m2 => (t.1, calculate_similarity m2 cand)

/-- The running-best selection of the sweep, abstracted to `(kind, score)`
rows: replace the best exactly when a row's score is strictly greater. -/
def bestFold (l : List (TransformType × ℚ)) (st : TransformType × ℚ) :
    TransformType × ℚ :=
  l.foldl (fun b p => if p.2 > b.2 then p else b) st

theorem bestFold_cons (p : TransformType × ℚ) (l : List (TransformType × ℚ))
    (st : TransformType × ℚ) :
    bestFold (p :: l) st = bestFold l (if p.2 > st.2 then p else st) := rfl

theorem detect_foldl_char (th : ℚ) (orig cand : PixelMatrix) :
    ∀ (l : List (TransformType × (PixelMatrix → Option PixelMatrix)))
      (st : TransformType × ℚ × List (TransformType × ℚ)),
    l.foldl (detectStep th orig cand) st =
      ((bestFold (scoredResults l orig cand) (st.1, st.2.1)).1,
       (bestFold (scoredResults l orig cand) (st.1, st.2.1)).2,
       st.2.2 ++ scoredResults l orig cand) := by
  intro l
  induction l with
  | nil =>
    intro st
    obtain ⟨k, s, r⟩ := st
    simp [scoredResults, bestFold]
  | cons t l ih =>
    intro st
    rw [List.foldl_cons]
    cases hc : t.2 orig with
    | none =>
      have hstep : detectStep th orig cand st t = st := by
        simp [detectStep, hc]
      have hsc : scoredResults (t :: l) orig cand = scoredResults l orig cand := by
        simp [scoredResults, List.filterMap_cons, hc]
      rw [hstep, hsc, ih st]
    | some m2 =>
      have hsc : scoredResults (t :: l) orig cand =
          (t.1, calculate_similarity m2 cand) :: scoredResults l orig cand := by
        simp [scoredResults, List.filterMap_cons, hc]
      rw [hsc, bestFold_cons]
      by_cases hgt : calculate_similarity m2 cand > st.2.1
      · have hstep : detectStep th orig cand st t =
            (t.1, calculate_similarity m2 cand,
              st.2.2 ++ [(t.1, calculate_similarity m2 cand)]) := by
          simp only [detectStep, hc]
          rw [if_pos hgt]
        rw [hstep, ih]
        rw [if_pos hgt]
        simp
      · have hstep : detectStep th orig cand st t =
            (st.1, st.2.1, st.2.2 ++ [(t.1, calculate_similarity m2 cand)]) := by
          simp only [detectStep, hc]
          rw [if_neg hgt]
        rw [hstep, ih]
        rw [if_neg hgt]
        simp

theorem le_foldl_max : ∀ (l : List ℚ) (b : ℚ), b ≤ l.foldl max b := by
  intro l
  induction l with
  | nil => intro b; exact le_refl b
  | cons x l ih =>
    intro b
    rw [List.foldl_cons]
    exact le_trans (le_max_left b x) (ih (max b x))

theorem mem_le_foldl_max : ∀ (l : List ℚ) (b x : ℚ), x ∈ l → x ≤ l.foldl max b := by
  intro l
  induction l with
  | nil => intro b x hx; simp at hx
  | cons y l ih =>
    intro b x hx
    rw [List.foldl_cons]
    rcases List.mem_cons.mp hx with h0 | h1
    · subst h0
      exact le_trans (le_max_right b x) (le_foldl_max l (max b x))
    · exact ih (max b y) x h1

theorem bestFold_snd : ∀ (l : List (TransformType × ℚ)) (st : TransformType × ℚ),
    (bestFold l st).2 = (l.map Prod.snd).foldl max st.2 := by
  intro l
  induction l with
  | nil => intro st; rfl
  | cons p l ih =>
    intro st
    rw [bestFold_cons, List.map_cons, List.foldl_cons, ih]
    by_cases hgt : p.2 > st.2
    · rw [if_pos hgt, max_eq_right (le_of_lt hgt)]
    · rw [if_neg hgt, max_eq_left (le_of_not_lt hgt)]

theorem bestFold_eq_init_or_mem :
    ∀ (l : List (TransformType × ℚ)) (st : TransformType × ℚ),
      bestFold l st = st ∨ bestFold l st ∈ l := by
  intro l
  induction l with
  | nil => intro st; exact Or.inl rfl
  | cons p l ih =>
    intro st
    rw [bestFold_cons]
    by_cases hgt : p.2 > st.2
    · rw [if_pos hgt]
      rcases ih p with h0 | h1
      · exact Or.inr (by rw [h0]; exact List.mem_cons_self p l)
      · exact Or.inr (List.mem_cons_of_mem p h1)
    · rw [if_neg hgt]
      rcases ih st with h0 | h1
      · exact Or.inl h0
      · exact Or.inr (List.mem_cons_of_mem p h1)

theorem bestFold_fst_eq_or_mem (l : List (TransformType × ℚ)) (st : TransformType × ℚ) :
    (bestFold l st).1 = st.1 ∨ (bestFold l st).1 ∈ l.map Prod.fst := by
  rcases bestFold_eq_init_or_mem l st with h0 | h1
  · exact Or.inl (congrArg Prod.fst h0)
  · exact Or.inr (List.mem_map_of_mem Prod.fst h1)

theorem bestFold_fst_eq_init :
    ∀ (l : List (TransformType × ℚ)) (st : TransformType × ℚ),
      st.1 ∉ l.map Prod.fst → (bestFold l st).1 = st.1 → (bestFold l st).2 = st.2 := by
  intro l
  induction l with
  | nil => intro st _ _; rfl
  | cons p l ih =>
    intro st hst hfst
    rw [bestFold_cons] at hfst ⊢
    have hne : st.1 ≠ p.1 := by
      intro hcontra
      exact hst (by rw [List.map_cons]; exact hcontra ▸ List.mem_cons_self _ _)
    have hnotmem : st.1 ∉ l.map Prod.fst := by
      intro hcontra
      exact hst (by rw [List.map_cons]; exact List.mem_cons_of_mem _ hcontra)
    by_cases hgt : p.2 > st.2
    · rw [if_pos hgt] at hfst ⊢
      exfalso
      rcases bestFold_fst_eq_or_mem l p with h0 | h1
      · rw [hfst] at h0
        exact hne h0
      · rw [hfst] at h1
        exact hnotmem h1
    · rw [if_neg hgt] at hfst ⊢
      exact ih st hnotmem hfst

theorem bestFold_fst_ne_init :
    ∀ (l : List (TransformType × ℚ)) (st : TransformType × ℚ),
      st.1 ∉ l.map Prod.fst → (bestFold l st).1 ≠ st.1 → st.2 < (bestFold l st).2 := by
  intro l
  induction l with
  | nil => intro st _ hfst; exact absurd rfl hfst
  | cons p l ih =>
    intro st hst hfst
    rw [bestFold_cons] at hfst ⊢
    have hnotmem : st.1 ∉ l.map Prod.fst := by
      intro hcontra
      exact hst (by rw [List.map_cons]; exact List.mem_cons_of_mem _ hcontra)
    by_cases hgt : p.2 > st.2
    · rw [if_pos hgt] at hfst ⊢
      have h1 : p.2 ≤ (bestFold l p).2 := by
        rw [bestFold_snd]
        exact le_foldl_max _ _
      exact lt_of_lt_of_le hgt h1
    · rw [if_neg hgt] at hfst ⊢
      exact ih st hnotmem hfst

theorem bestFold_argmax :
    ∀ (l : List (TransformType × ℚ)) (st : TransformType × ℚ) (i : Nat)
      (hi : i < l.length),
      (l.map Prod.fst).Nodup → st.1 ∉ l.map Prod.fst →
      (bestFold l st).1 = l[i].1 →
      st.2 < l[i].2 ∧
      (∀ j (hj : j < l.length), j < i → l[j].2 < l[i].2) ∧
      (bestFold l st).2 = l[i].2 := by
  intro l
  induction l with
  | nil => intro st i hi; exact absurd hi (Nat.not_lt_zero i)
  | cons p l ih =>
    intro st i hi hnd hst hfst
    have hndtail : (l.map Prod.fst).Nodup := by
      rw [List.map_cons, List.nodup_cons] at hnd
      exact hnd.2
    have hpnot : p.1 ∉ l.map Prod.fst := by
      rw [List.map_cons, List.nodup_cons] at hnd
      exact hnd.1
    have hstne : st.1 ≠ p.1 := by
      intro hcontra
      exact hst (by rw [List.map_cons, hcontra]; exact List.mem_cons_self _ _)
    have hstnot : st.1 ∉ l.map Prod.fst := by
      intro hcontra
      exact hst (by rw [List.map_cons]; exact List.mem_cons_of_mem _ hcontra)
    rw [bestFold_cons] at hfst ⊢
    cases i with
    | zero =>
      simp only [List.getElem_cons_zero] at hfst ⊢
      by_cases hgt : p.2 > st.2
      · rw [if_pos hgt] at hfst ⊢
        refine ⟨hgt, ?_, ?_⟩
        · intro j hj hji
          omega
        · exact bestFold_fst_eq_init l p hpnot hfst
      · rw [if_neg hgt] at hfst ⊢
        exfalso
        rcases bestFold_fst_eq_or_mem l st with h0 | h1
        · exact hstne (h0.symm.trans hfst)
        · rw [hfst] at h1
          exact hpnot h1
    | succ i2 =>
      have hi2 : i2 < l.length := by
        simpa using hi
      simp only [List.getElem_cons_succ] at hfst ⊢
      by_cases hgt : p.2 > st.2
      · rw [if_pos hgt] at hfst ⊢
        obtain ⟨hA, hB, hC⟩ := ih p i2 hi2 hndtail hpnot hfst
        refine ⟨lt_trans hgt hA, ?_, hC⟩
        intro j hj hji
        cases j with
        | zero =>
          simp only [List.getElem_cons_zero]
          exact hA
        | succ j2 =>
          have hj2 : j2 < l.length := by simpa using hj
          simp only [List.getElem_cons_succ]
          exact hB j2 hj2 (by omega)
      · rw [if_neg hgt] at hfst ⊢
        obtain ⟨hA, hB, hC⟩ := ih st i2 hi2 hndtail hstnot hfst
        refine ⟨hA, ?_, hC⟩
        intro j hj hji
        cases j with
        | zero =>
          simp only [List.getElem_cons_zero]
          exact lt_of_le_of_lt (le_of_not_lt hgt) hA
        | succ j2 =>
          have hj2 : j2 < l.length := by simpa using hj
          simp only [List.getElem_cons_succ]
          exact hB j2 hj2 (by omega)

/-- The six `(kind, score)` rows produced by the sweep on `orig`/`cand`,
in declaration order. -/
def hypRows (orig cand : PixelMatrix) : List (TransformType × ℚ) :=
  [(TransformType.IDENTICAL, calculate_similarity orig cand),
   (TransformType.ROTATE_CW, calculate_similarity (apply_rotate_cw orig) cand),
   (TransformType.ROTATE_CCW, calculate_similarity (apply_rotate_ccw orig) cand),
   (TransformType.ROTATE_180, calculate_similarity (apply_rotate_180 orig) cand),
   (TransformType.MIRROR_H, calculate_similarity (apply_mirror_h orig) cand),
   (TransformType.MIRROR_V, calculate_similarity (apply_mirror_v orig) cand)]

theorem scoredResults_transformations (orig cand : PixelMatrix) :
    scoredResults (transformations.map fun t => (t.1, fun m => some (t.2 m))) orig cand =
      hypRows orig cand := rfl

theorem hypRows_map_fst (orig cand : PixelMatrix) :
    (hypRows orig cand).map Prod.fst =
      [TransformType.IDENTICAL, TransformType.ROTATE_CW, TransformType.ROTATE_CCW,
       TransformType.ROTATE_180, TransformType.MIRROR_H, TransformType.MIRROR_V] := rfl

theorem allScores_eq_map_snd (orig cand : PixelMatrix) :
    allScores orig cand = (hypRows orig cand).map Prod.snd := rfl

theorem detect_transformation_eq (th : ℚ) (orig cand : PixelMatrix) :
    detect_transformation th orig cand =
      ((bestFold (hypRows orig cand) (TransformType.UNKNOWN, 0)).1,
       (bestFold (hypRows orig cand) (TransformType.UNKNOWN, 0)).2,
       hypRows orig cand) := by
  unfold detect_transformation detect_with
  rw [detect_foldl_char, scoredResults_transformations]
  simp

/-- The 4×4 matrix of the spec's concrete rotation scenario. -/
def mat4 : PixelMatrix :=
  ⟨4, 4, [1, 2, 3, 4, 5, 6, 7, 8, 9, 10, 11, 12, 13, 14, 15, 16]⟩

/-- `mat4` rotated 90° clockwise. -/
def mat4cw : PixelMatrix :=
  ⟨4, 4, [13, 9, 5, 1, 14, 10, 6, 2, 15, 11, 7, 3, 16, 12, 8, 4]⟩

/-! ### Claim theorems -/

/-- C1 counterexample: the running best is initialized to the kind
`UNKNOWN` with score `0.0` — not a sentinel below every valid score — so on
structurally valid inputs where all six hypotheses score exactly 0 the
engine returns `UNKNOWN`, not the first-declared hypothesis, even though
every hypothesis was scored. -/
theorem detect_all_zero_yields_unknown :
    (⟨1, 1, [0]⟩ : PixelMatrix).wf ∧ (⟨1, 1, [1]⟩ : PixelMatrix).wf ∧
    detect_transformation (95/100) ⟨1, 1, [0]⟩ ⟨1, 1, [1]⟩ =
      (TransformType.UNKNOWN, 0,
        [(TransformType.IDENTICAL, 0), (TransformType.ROTATE_CW, 0),
         (TransformType.ROTATE_CCW, 0), (TransformType.ROTATE_180, 0),
         (TransformType.MIRROR_H, 0), (TransformType.MIRROR_V, 0)]) := by
  refine ⟨by decide, by decide, by with_unfolding_all decide⟩

/-- C1 (amended): every hypothesis score is nonnegative and bounded by the
returned `bestScore`; the returned `bestKind` is `UNKNOWN` exactly when
`bestScore` is 0 (the initial sentinel), which happens in particular when
every hypothesis scores 0; and whenever the verdict is not `UNKNOWN`, the
returned `(bestKind, bestScore)` pair is one of the scored hypothesis rows
(hence a hypothesis attaining the maximum score). -/
theorem detect_transformation_tracks_max (th : ℚ) (orig cand : PixelMatrix)
    (s : ℚ) (hs : s ∈ allScores orig cand) :
    (0 ≤ s ∧ s ≤ (detect_transformation th orig cand).2.1) ∧
    ((detect_transformation th orig cand).1 = TransformType.UNKNOWN ↔
      (detect_transformation th orig cand).2.1 = 0) ∧
    (((detect_transformation th orig cand).1 = TransformType.UNKNOWN ∧
        (detect_transformation th orig cand).2.1 = 0) ∨
      ((detect_transformation th orig cand).1,
        (detect_transformation th orig cand).2.1) ∈
        (detect_transformation th orig cand).2.2) := by
  have hchar := detect_transformation_eq th orig cand
  have h1 : (detect_transformation th orig cand).1 =
      (bestFold (hypRows orig cand) (TransformType.UNKNOWN, 0)).1 := by rw [hchar]
  have h2 : (detect_transformation th orig cand).2.1 =
      (bestFold (hypRows orig cand) (TransformType.UNKNOWN, 0)).2 := by rw [hchar]
  have h3 : (detect_transformation th orig cand).2.2 = hypRows orig cand := by
    rw [hchar]
  have hnotmem : (TransformType.UNKNOWN, (0 : ℚ)).1 ∉ (hypRows orig cand).map Prod.fst := by
    rw [hypRows_map_fst]
    decide
  refine ⟨⟨?_, ?_⟩, ⟨?_, ?_⟩, ?_⟩
  · rcases List.mem_map.mp hs with ⟨t, _, ht⟩
    rw [← ht]
    exact calculate_similarity_nonneg _ _
  · rw [h2, bestFold_snd]
    apply mem_le_foldl_max
    rw [← allScores_eq_map_snd]
    exact hs
  · intro hu
    rw [h2]
    exact bestFold_fst_eq_init (hypRows orig cand) _ hnotmem (by rw [← h1]; exact hu)
  · intro hz
    by_contra hne
    have hlt := bestFold_fst_ne_init (hypRows orig cand) (TransformType.UNKNOWN, 0)
      hnotmem (by rw [← h1]; exact hne)
    rw [← h2, hz] at hlt
    exact lt_irrefl 0 hlt
  · rcases bestFold_eq_init_or_mem (hypRows orig cand) (TransformType.UNKNOWN, 0)
      with h0 | hmem
    · left
      exact ⟨by rw [h1, h0], by rw [h2, h0]⟩
    · right
      rw [h1, h2, h3]
      exact hmem

/-- Witness for C1's amended theorem at the concrete rotation scenario. -/
theorem detect_transformation_tracks_max_witness :
    (100 : ℚ) ∈ allScores mat4 mat4cw ∧
    ((0 ≤ (100 : ℚ) ∧ (100 : ℚ) ≤ (detect_transformation (95/100) mat4 mat4cw).2.1) ∧
     ((detect_transformation (95/100) mat4 mat4cw).1 = TransformType.UNKNOWN ↔
       (detect_transformation (95/100) mat4 mat4cw).2.1 = 0) ∧
     (((detect_transformation (95/100) mat4 mat4cw).1 = TransformType.UNKNOWN ∧
         (detect_transformation (95/100) mat4 mat4cw).2.1 = 0) ∨
       ((detect_transformation (95/100) mat4 mat4cw).1,
         (detect_transformation (95/100) mat4 mat4cw).2.1) ∈
         (detect_transformation (95/100) mat4 mat4cw).2.2)) :=
  ⟨by with_unfolding_all decide,
   detect_transformation_tracks_max (95/100) mat4 mat4cw 100 (by with_unfolding_all decide)⟩

/-- C2: the sweep evaluates the hypotheses in the fixed declaration order
Identity, RotateCW, RotateCCW, Rotate180, MirrorHorizontal, MirrorVertical
(`allResults` lists the per-hypothesis rows in exactly that order), and the
running best is replaced only by a strictly greater score: whenever the
returned `bestKind` is the kind of row `i`, every earlier row scored
strictly less (so the earliest-declared hypothesis wins every tie), and
`bestScore` is row `i`'s score. -/
theorem detect_transformation_order_tiebreak (th : ℚ) (orig cand : PixelMatrix)
    (i j : Nat)
    (hi : i < (detect_transformation th orig cand).2.2.length)
    (hj : j < i)
    (hbest : (detect_transformation th orig cand).1 =
      ((detect_transformation th orig cand).2.2.getD i (TransformType.UNKNOWN, 0)).1) :
    (detect_transformation th orig cand).2.2 = hypRows orig cand ∧
    ((detect_transformation th orig cand).2.2.getD j (TransformType.UNKNOWN, 0)).2 <
      ((detect_transformation th orig cand).2.2.getD i (TransformType.UNKNOWN, 0)).2 ∧
    (detect_transformation th orig cand).2.1 =
      ((detect_transformation th orig cand).2.2.getD i (TransformType.UNKNOWN, 0)).2 := by
  have hchar := detect_transformation_eq th orig cand
  have h1 : (detect_transformation th orig cand).1 =
      (bestFold (hypRows orig cand) (TransformType.UNKNOWN, 0)).1 := by rw [hchar]
  have h2 : (detect_transformation th orig cand).2.1 =
      (bestFold (hypRows orig cand) (TransformType.UNKNOWN, 0)).2 := by rw [hchar]
  have h3 : (detect_transformation th orig cand).2.2 = hypRows orig cand := by
    rw [hchar]
  rw [h3] at hi hbest ⊢
  rw [h1] at hbest
  have hjlen : j < (hypRows orig cand).length := by omega
  rw [List.getD_eq_getElem _ _ hi] at hbest ⊢
  rw [List.getD_eq_getElem _ _ hjlen]
  have hnd : ((hypRows orig cand).map Prod.fst).Nodup := by
    rw [hypRows_map_fst]
    decide
  have hnotmem : (TransformType.UNKNOWN, (0 : ℚ)).1 ∉ (hypRows orig cand).map Prod.fst := by
    rw [hypRows_map_fst]
    decide
  obtain ⟨hA, hB, hC⟩ :=
    bestFold_argmax (hypRows orig cand) (TransformType.UNKNOWN, 0) i hi hnd hnotmem hbest
  exact ⟨rfl, hB j hjlen hj, by rw [h2]; exact hC⟩

/-- Witness for C2 at a 1×2 original whose clockwise rotation equals the
2×1 candidate: `bestKind` is the row at index 1 (`ROTATE_CW`), and the
theorem yields that the earlier row (index 0, `IDENTICAL`) scored strictly
less. -/
theorem detect_transformation_order_tiebreak_witness :
    1 < (detect_transformation (1/2) ⟨1, 2, [1, 2]⟩ ⟨2, 1, [1, 2]⟩).2.2.length ∧
    0 < 1 ∧
    (detect_transformation (1/2) ⟨1, 2, [1, 2]⟩ ⟨2, 1, [1, 2]⟩).1 =
      ((detect_transformation (1/2) ⟨1, 2, [1, 2]⟩ ⟨2, 1, [1, 2]⟩).2.2.getD 1
        (TransformType.UNKNOWN, 0)).1 ∧
    ((detect_transformation (1/2) ⟨1, 2, [1, 2]⟩ ⟨2, 1, [1, 2]⟩).2.2 =
      hypRows ⟨1, 2, [1, 2]⟩ ⟨2, 1, [1, 2]⟩ ∧
     ((detect_transformation (1/2) ⟨1, 2, [1, 2]⟩ ⟨2, 1, [1, 2]⟩).2.2.getD 0
        (TransformType.UNKNOWN, 0)).2 <
      ((detect_transformation (1/2) ⟨1, 2, [1, 2]⟩ ⟨2, 1, [1, 2]⟩).2.2.getD 1
        (TransformType.UNKNOWN, 0)).2 ∧
     (detect_transformation (1/2) ⟨1, 2, [1, 2]⟩ ⟨2, 1, [1, 2]⟩).2.1 =
      ((detect_transformation (1/2) ⟨1, 2, [1, 2]⟩ ⟨2, 1, [1, 2]⟩).2.2.getD 1
        (TransformType.UNKNOWN, 0)).2) :=
  ⟨by with_unfolding_all decide, by decide, by with_unfolding_all decide,
   detect_transformation_order_tiebreak (1/2) ⟨1, 2, [1, 2]⟩ ⟨2, 1, [1, 2]⟩ 1 0
     (by with_unfolding_all decide) (by decide) (by with_unfolding_all decide)⟩

/-- C3 counterexample: a malformed matrix (declared 2×2 but holding only 3
elements) is not rejected — no structural validation exists anywhere in
`detect_transformation` — and the full six-hypothesis sweep runs on it and
returns an ordinary verdict instead of a structural-validation error. -/
theorem malformed_matrix_swept_not_rejected :
    ¬ (⟨2, 2, [1, 2, 3]⟩ : PixelMatrix).wf ∧
    detect_transformation (95/100) ⟨2, 2, [1, 2, 3]⟩ ⟨2, 2, [1, 2, 3]⟩ =
      (TransformType.IDENTICAL, 75,
        [(TransformType.IDENTICAL, 75), (TransformType.ROTATE_CW, 0),
         (TransformType.ROTATE_CCW, 0), (TransformType.ROTATE_180, 0),
         (TransformType.MIRROR_H, 0), (TransformType.MIRROR_V, 0)]) := by
  refine ⟨by decide, by with_unfolding_all decide⟩

/-- C3 (amended): the engine performs no structural validation and never
raises to the caller: for every pair of inputs — well-formed or not — the
sweep runs to completion and returns a verdict with exactly one result row
per hypothesis, in declaration order. -/
theorem detect_transformation_total_verdict (th : ℚ) (orig cand : PixelMatrix) :
    (detect_transformation th orig cand).2.2.map Prod.fst =
      [TransformType.IDENTICAL, TransformType.ROTATE_CW, TransformType.ROTATE_CCW,
       TransformType.ROTATE_180, TransformType.MIRROR_H, TransformType.MIRROR_V] ∧
    (detect_transformation th orig cand).2.2.length = 6 := by
  have h3 : (detect_transformation th orig cand).2.2 = hypRows orig cand := by
    rw [detect_transformation_eq]
  exact ⟨by rw [h3]; rfl, by rw [h3]; rfl⟩

/-- C4 counterexample: when one hypothesis's transform raises (modelled by
the `ROTATE_CW` slot returning `none`), the `except` branch records
nothing: the returned results contain only five rows and no zero-score row
for `ROTATE_CW`, contradicting the claimed zero-score record and the
claimed fully-populated six-row sequence. -/
theorem failed_hypothesis_row_dropped :
    detect_with
      [(TransformType.IDENTICAL, fun m => some m),
       (TransformType.ROTATE_CW, fun _ => none),
       (TransformType.ROTATE_CCW, fun m => some (apply_rotate_ccw m)),
       (TransformType.ROTATE_180, fun m => some (apply_rotate_180 m)),
       (TransformType.MIRROR_H, fun m => some (apply_mirror_h m)),
       (TransformType.MIRROR_V, fun m => some (apply_mirror_v m))]
      (95/100) mat4 mat4cw =
      (TransformType.MIRROR_H, 25,
        [(TransformType.IDENTICAL, 0), (TransformType.ROTATE_CCW, 0),
         (TransformType.ROTATE_180, 0), (TransformType.MIRROR_H, 25),
         (TransformType.MIRROR_V, 25)]) := by
  with_unfolding_all decide

/-- C4 (amended): a hypothesis whose transform raises is caught and skipped
entirely — the sweep state is unchanged, no row (zero-score or otherwise)
is recorded for it, and the remaining hypotheses still run; because the six
real transforms and the scorer are total, `detect_transformation` always
returns exactly one result row per hypothesis. -/
theorem detect_skips_raising_hypothesis
    (l1 l2 : List (TransformType × (PixelMatrix → Option PixelMatrix)))
    (k : TransformType) (th : ℚ) (orig cand : PixelMatrix) :
    detect_with (l1 ++ (k, fun _ => none) :: l2) th orig cand =
      detect_with (l1 ++ l2) th orig cand ∧
    (detect_transformation th orig cand).2.2.length = 6 := by
  constructor
  · unfold detect_with
    rw [List.foldl_append, List.foldl_append, List.foldl_cons]
    rfl
  · rw [detect_transformation_eq]
    rfl

/-- C5: `calculate_similarity` returns 0 (without any failure — it is a
total function) whenever the two shapes differ, and for equal shapes it
returns exactly the number of positions holding equal values (exact
per-pixel integer equality, counted positionwise over the 2-D grid)
divided by the total position count, times 100. -/
theorem calculate_similarity_spec (a b : PixelMatrix) :
    (a.shape ≠ b.shape → calculate_similarity a b = 0) ∧
    (a.shape = b.shape → a.wf → b.wf →
      calculate_similarity a b = (specMatchCount a b : ℚ) / (a.size : ℚ) * 100) := by
  constructor
  · intro hne
    unfold calculate_similarity
    rw [if_pos hne]
  · intro heq ha hb
    unfold calculate_similarity
    rw [if_neg (by simp [heq]), matchCount_eq_spec a b heq ha hb]

/-- Witness for C5: a shape-mismatched pair scores 0, and an equal-shaped
pair scores the positionwise match fraction times 100. -/
theorem calculate_similarity_spec_witness :
    calculate_similarity ⟨1, 2, [1, 2]⟩ ⟨2, 1, [1, 2]⟩ = 0 ∧
    calculate_similarity ⟨1, 2, [1, 2]⟩ ⟨1, 2, [1, 3]⟩ =
      (specMatchCount ⟨1, 2, [1, 2]⟩ ⟨1, 2, [1, 3]⟩ : ℚ) /
        ((⟨1, 2, [1, 2]⟩ : PixelMatrix).size : ℚ) * 100 :=
  ⟨(calculate_similarity_spec ⟨1, 2, [1, 2]⟩ ⟨2, 1, [1, 2]⟩).1 (by decide),
   (calculate_similarity_spec ⟨1, 2, [1, 2]⟩ ⟨1, 2, [1, 3]⟩).2 (by decide)
     (by decide) (by decide)⟩

/-- C6: the threshold is dead for the value `detect_transformation`
returns — for any two thresholds in `[0, 1]` the full returned tuple
(best kind, best score, all results) is identical; the threshold is
consulted only at the reporting boundary (`is_confirmed`). -/
theorem detect_transformation_threshold_independent (orig cand : PixelMatrix)
    (t1 t2 : ℚ) (h1 : 0 ≤ t1) (h2 : t1 ≤ 1) (h3 : 0 ≤ t2) (h4 : t2 ≤ 1) :
    detect_transformation t1 orig cand = detect_transformation t2 orig cand := by
  rw [detect_transformation_eq, detect_transformation_eq]

/-- Witness for C6 at the extreme thresholds 0 and 1. -/
theorem detect_transformation_threshold_independent_witness :
    (0 : ℚ) ≤ 0 ∧ (0 : ℚ) ≤ 1 ∧ (0 : ℚ) ≤ 1 ∧ (1 : ℚ) ≤ 1 ∧
    detect_transformation 0 mat4 mat4cw = detect_transformation 1 mat4 mat4cw :=
  ⟨le_refl 0, by norm_num, by norm_num, le_refl 1,
   detect_transformation_threshold_independent mat4 mat4cw 0 1 (le_refl 0)
     (by norm_num) (by norm_num) (le_refl 1)⟩

/-- C7: `apply_rotate_cw` maps every `h×w` matrix to a `w×h` matrix with
`out[x, h-1-y] = in[y, x]`; concretely, the spec's 4×4 scenario rotates to
the expected matrix, and detecting that pair at threshold 0.95 yields
`ROTATE_CW` at score 100 (a confirmed match, `100 ≥ 0.95·100`). -/
theorem apply_rotate_cw_spec (m : PixelMatrix) (y x : Nat)
    (hy : y < m.height) (hx : x < m.width) :
    (apply_rotate_cw m).shape = (m.width, m.height) ∧
    (apply_rotate_cw m).pixAt x (m.height - 1 - y) = m.pixAt y x ∧
    apply_rotate_cw mat4 = mat4cw ∧
    detect_transformation (95/100) mat4 mat4cw =
      (TransformType.ROTATE_CW, 100,
        [(TransformType.IDENTICAL, 0), (TransformType.ROTATE_CW, 100),
         (TransformType.ROTATE_CCW, 0), (TransformType.ROTATE_180, 0),
         (TransformType.MIRROR_H, 25), (TransformType.MIRROR_V, 25)]) ∧
    is_confirmed (95/100) 100 = true := by
  refine ⟨rfl, ?_, by decide, by with_unfolding_all decide, by with_unfolding_all decide⟩
  show (mkMatrix m.width m.height fun i j => m.pixAt (m.height - 1 - j) i).pixAt
      x (m.height - 1 - y) = m.pixAt y x
  rw [pixAt_mkMatrix _ _ _ _ _ hx (by omega)]
  congr 1
  omega

/-- Witness for C7 at `mat4`, position (0, 0). -/
theorem apply_rotate_cw_spec_witness :
    0 < mat4.height ∧ 0 < mat4.width ∧
    ((apply_rotate_cw mat4).shape = (mat4.width, mat4.height) ∧
     (apply_rotate_cw mat4).pixAt 0 (mat4.height - 1 - 0) = mat4.pixAt 0 0 ∧
     apply_rotate_cw mat4 = mat4cw ∧
     detect_transformation (95/100) mat4 mat4cw =
       (TransformType.ROTATE_CW, 100,
         [(TransformType.IDENTICAL, 0), (TransformType.ROTATE_CW, 100),
          (TransformType.ROTATE_CCW, 0), (TransformType.ROTATE_180, 0),
          (TransformType.MIRROR_H, 25), (TransformType.MIRROR_V, 25)]) ∧
     is_confirmed (95/100) 100 = true) :=
  ⟨by decide, by decide, apply_rotate_cw_spec mat4 0 0 (by decide) (by decide)⟩

/-- C8: on every well-formed pixel matrix (including degenerate 1×1 and
1×N shapes) rotating clockwise then counter-clockwise (and vice versa)
reproduces the input exactly, and rotate-180, mirror-horizontal and
mirror-vertical are involutions. -/
theorem transforms_round_trip (m : PixelMatrix) (hm : m.wf) :
    apply_rotate_ccw (apply_rotate_cw m) = m ∧
    apply_rotate_cw (apply_rotate_ccw m) = m ∧
    apply_rotate_180 (apply_rotate_180 m) = m ∧
    apply_mirror_h (apply_mirror_h m) = m ∧
    apply_mirror_v (apply_mirror_v m) = m :=
  ⟨rotate_ccw_rotate_cw m hm, rotate_cw_rotate_ccw m hm,
   rotate_180_involutive m hm, mirror_h_involutive m hm, mirror_v_involutive m hm⟩

/-- Witness for C8 at a degenerate 1×3 matrix. -/
theorem transforms_round_trip_witness :
    (⟨1, 3, [7, 8, 9]⟩ : PixelMatrix).wf ∧
    (apply_rotate_ccw (apply_rotate_cw ⟨1, 3, [7, 8, 9]⟩) = ⟨1, 3, [7, 8, 9]⟩ ∧
     apply_rotate_cw (apply_rotate_ccw ⟨1, 3, [7, 8, 9]⟩) = ⟨1, 3, [7, 8, 9]⟩ ∧
     apply_rotate_180 (apply_rotate_180 ⟨1, 3, [7, 8, 9]⟩) = ⟨1, 3, [7, 8, 9]⟩ ∧
     apply_mirror_h (apply_mirror_h ⟨1, 3, [7, 8, 9]⟩) = ⟨1, 3, [7, 8, 9]⟩ ∧
     apply_mirror_v (apply_mirror_v ⟨1, 3, [7, 8, 9]⟩) = ⟨1, 3, [7, 8, 9]⟩) :=
  ⟨by decide, transforms_round_trip ⟨1, 3, [7, 8, 9]⟩ (by decide)⟩

/-- C9: the difference reporter returns `none` ("not applicable", no map
at all) when the shapes differ; for equal shapes it returns the
positionwise absolute-difference grid whose nonzero count is zero exactly
when the matrices are pixelwise equal, and whose max/mean statistics are
computed from the unamplified differences (the ×5 clipped `amplified` grid
is a separate field feeding nothing else). -/
theorem visualize_difference_spec (a b : PixelMatrix) :
    (a.shape ≠ b.shape → visualize_difference a b = none) ∧
    (a.shape = b.shape → a.wf → b.wf →
      (visualize_difference a b = some
        { diffMap := specDiffList a b
          amplified := (specDiffList a b).map fun d => min (d * 5) 255
          nonZero := (specDiffList a b).countP fun d => d != 0
          total := a.size
          maxDiff := (specDiffList a b).foldl max 0
          meanDiff := ((specDiffList a b).map fun d => (d : ℚ)).sum / (a.size : ℚ) } ∧
       (((specDiffList a b).countP fun d => d != 0) = 0 ↔ a = b))) := by
  constructor
  · intro hne
    unfold visualize_difference
    rw [if_pos hne]
  · intro heq ha hb
    have hdd : diffData a b = specDiffList a b := diffData_eq_spec a b heq ha hb
    have hh : a.height = b.height := congrArg Prod.fst heq
    have hw : a.width = b.width := congrArg Prod.snd heq
    have hlen : a.data.length = b.data.length := by
      rw [ha, hb, hh, hw]
    constructor
    · unfold visualize_difference
      rw [if_neg (by simp [heq])]
      rw [hdd]
    · rw [← hdd]
      unfold diffData
      rw [List.countP_eq_zero]
      constructor
      · intro hall
        have hdata : a.data = b.data := by
          refine (zip_forall_eq a.data b.data hlen).mp ?_
          intro p hp
          have hz := hall (((p.1 : ℤ) - (p.2 : ℤ)).natAbs) (List.mem_map_of_mem _ hp)
          simp only [ne_eq, bne_iff_ne, not_not] at hz
          rw [Int.natAbs_eq_zero, sub_eq_zero] at hz
          exact_mod_cast hz
        calc a = ⟨a.height, a.width, a.data⟩ := rfl
          _ = ⟨b.height, b.width, b.data⟩ := by rw [hh, hw, hdata]
          _ = b := rfl
      · intro heqab
        subst heqab
        intro d hd
        rcases List.mem_map.mp hd with ⟨p, hp, hdp⟩
        have hpe : p.1 = p.2 := mem_zip_self a.data p hp
        rw [← hdp]
        simp [hpe]

/-- Witness for C9: a shape-mismatched pair yields `none`; an equal-shaped
pair differing in one pixel yields the spec-side statistics record and the
nonzero-count criterion. -/
theorem visualize_difference_spec_witness :
    visualize_difference ⟨1, 2, [1, 2]⟩ ⟨2, 1, [1, 2]⟩ = none ∧
    (visualize_difference ⟨2, 2, [1, 2, 3, 4]⟩ ⟨2, 2, [1, 2, 3, 7]⟩ = some
      { diffMap := specDiffList ⟨2, 2, [1, 2, 3, 4]⟩ ⟨2, 2, [1, 2, 3, 7]⟩
        amplified := (specDiffList ⟨2, 2, [1, 2, 3, 4]⟩ ⟨2, 2, [1, 2, 3, 7]⟩).map
          fun d => min (d * 5) 255
        nonZero := (specDiffList ⟨2, 2, [1, 2, 3, 4]⟩ ⟨2, 2, [1, 2, 3, 7]⟩).countP
          fun d => d != 0
        total := (⟨2, 2, [1, 2, 3, 4]⟩ : PixelMatrix).size
        maxDiff := (specDiffList ⟨2, 2, [1, 2, 3, 4]⟩ ⟨2, 2, [1, 2, 3, 7]⟩).foldl max 0
        meanDiff := ((specDiffList ⟨2, 2, [1, 2, 3, 4]⟩ ⟨2, 2, [1, 2, 3, 7]⟩).map
          fun d => (d : ℚ)).sum / ((⟨2, 2, [1, 2, 3, 4]⟩ : PixelMatrix).size : ℚ) } ∧
     (((specDiffList ⟨2, 2, [1, 2, 3, 4]⟩ ⟨2, 2, [1, 2, 3, 7]⟩).countP
        fun d => d != 0) = 0 ↔
       (⟨2, 2, [1, 2, 3, 4]⟩ : PixelMatrix) = ⟨2, 2, [1, 2, 3, 7]⟩)) :=
  ⟨(visualize_difference_spec ⟨1, 2, [1, 2]⟩ ⟨2, 1, [1, 2]⟩).1 (by decide),
   (visualize_difference_spec ⟨2, 2, [1, 2, 3, 4]⟩ ⟨2, 2, [1, 2, 3, 7]⟩).2
     (by decide) (by decide) (by decide)⟩

/-- C10: for equal-shaped well-formed matrices with at least one pixel the
similarity score lies in `[0, 100]`; the match count is divided by the
total pixel count with no guard against a zero total, so the
non-emptiness precondition is what keeps the quotient a genuine
percentage (in Python a 0-pixel comparison divides 0 by 0 and yields NaN,
not a score). -/
theorem calculate_similarity_bounded (a b : PixelMatrix)
    (hsh : a.shape = b.shape) (ha : a.wf) (hb : b.wf) (hpos : 0 < a.size) :
    0 ≤ calculate_similarity a b ∧ calculate_similarity a b ≤ 100 := by
  refine ⟨calculate_similarity_nonneg a b, ?_⟩
  unfold calculate_similarity
  rw [if_neg (by simp [hsh])]
  have hszpos : (0 : ℚ) < (a.size : ℚ) := by exact_mod_cast hpos
  have hcount : matchCount a b ≤ a.size := by
    unfold matchCount
    calc (a.data.zip b.data).countP (fun p => p.1 == p.2)
        ≤ (a.data.zip b.data).length := List.countP_le_length _
      _ ≤ a.data.length := by
          rw [List.length_zip]
          exact inf_le_left
      _ = a.size := ha
  have hdiv : (matchCount a b : ℚ) / (a.size : ℚ) ≤ 1 := by
    rw [div_le_one hszpos]
    exact_mod_cast hcount
  calc (matchCount a b : ℚ) / (a.size : ℚ) * 100 ≤ 1 * 100 :=
      mul_le_mul_of_nonneg_right hdiv (by norm_num)
    _ = 100 := by norm_num

/-- Witness for C10 at a 1×1 matrix compared with itself. -/
theorem calculate_similarity_bounded_witness :
    (⟨1, 1, [5]⟩ : PixelMatrix).shape = (⟨1, 1, [5]⟩ : PixelMatrix).shape ∧
    (⟨1, 1, [5]⟩ : PixelMatrix).wf ∧ 0 < (⟨1, 1, [5]⟩ : PixelMatrix).size ∧
    (0 ≤ calculate_similarity ⟨1, 1, [5]⟩ ⟨1, 1, [5]⟩ ∧
     calculate_similarity ⟨1, 1, [5]⟩ ⟨1, 1, [5]⟩ ≤ 100) :=
  ⟨rfl, by decide, by decide,
   calculate_similarity_bounded ⟨1, 1, [5]⟩ ⟨1, 1, [5]⟩ rfl (by decide) (by decide)
     (by decide)⟩
